import Mathlib

/-!
Verification of the audio/video batch-merge script (`tmp.py`).

The script walks the immediate subdirectories of an audio root, pairs each
`.wav` file (case-insensitive extension match) with a same-base-name `.mp4`
file in the mirrored video subdirectory, and invokes `ffmpeg` once per pair
to produce a `.webm` file in the mirrored output subdirectory.

The filesystem is modelled by the three query functions the script calls
(`os.listdir`, `os.path.isdir`, `os.path.exists`); the external encoder is
modelled by a function returning success, a checked failure
(`subprocess.CalledProcessError`, raised by `subprocess.run(..., check=True)`
on a non-zero exit), or any other exception.  A run is the list of
observable events (directory creations, printed notices, encoder
invocations) together with a flag recording whether an uncaught exception
aborted the run.
-/

/-- Index of the last '.' in a list of characters, if any.  Mirrors
`p.rfind(extsep)` in CPython's `genericpath._splitext` for a bare file
name (one containing no directory separator). -/
def lastDotIndex : List Char → Option Nat
  | [] => none
  | c :: rest =>
    match lastDotIndex rest with
    | some i => some (i + 1)
    | none => if c = '.' then some 0 else none

/-- Base-name part of CPython `os.path.splitext` on a bare file name:
split at the last dot, except that leading dots of the name are never
extension separators (so `splitextBase ".wav" = ".wav"`). -/
def splitextBase (p : String) : String :=
  match lastDotIndex p.data with
  | none => p
  | some d =>
    if (p.data.take d).any (fun c => c ≠ '.') then String.mk (p.data.take d) else p

/-- Python `str.lower()` character by character; `Char.toLower` covers the
ASCII range, which decides the ".wav" suffix test (no non-ASCII character
lowercases to an ASCII letter of "wav" or to '.'). -/
def lower (s : String) : String := String.mk (s.data.map Char.toLower)

/-- Python `s.endswith(t)`: the character sequence of `s` ends with that
of `t`. -/
def endswith (s t : String) : Bool := t.data.isSuffixOf s.data

/-- Models `os.path.join a b` (posixpath, two arguments): an absolute
second component replaces the first; otherwise a '/' separator is
inserted unless the first part is empty or already ends in '/'. -/
def pjoin (a b : String) : String :=
  if b.data.head? = some '/' then b
  else if a.data = [] ∨ a.data.getLast? = some '/' then a ++ b
  else a ++ "/" ++ b

/-- The filesystem, abstracted to exactly the queries the script makes:
`os.listdir`, `os.path.isdir`, `os.path.exists`. -/
structure FS where
  listdir : String → List String
  isdir : String → Bool
  path_exists : String → Bool

/-- Outcome of one `subprocess.run(cmd, check=True)` call on the encoder:
normal exit, `CalledProcessError` (non-zero exit status with `check=True`),
or any other exception (e.g. `FileNotFoundError` when the executable is
missing). -/
inductive EncResult where
  | success
  | calledProcessError
  | otherError
deriving DecidableEq

/-- The external encoder, as a function of the three paths handed to
`merge_audio_video(video_file, audio_file, output_file)`. -/
def Encoder : Type := String → String → String → EncResult

/-- Observable events of a run: `os.makedirs` calls, the three printed
notices, and the encoder invocation itself (`mergeCall` records the
argument order of `merge_audio_video`). -/
inductive Event where
  | makedirs (path : String)
  | folderSkipped (video_subfolder subfolder : String)
  | fileSkipped (video_file audio_file : String)
  | merging (audio_file video_file output_file : String)
  | mergeCall (video_file audio_file output_file : String)
  | mergeError (video_file audio_file output_file : String)
deriving DecidableEq

/-- Result of (part of) a run: the events emitted, and whether an uncaught
exception aborted the run at the end of those events. -/
structure RunResult where
  events : List Event
  aborted : Bool
deriving DecidableEq

/-- The command list built by `merge_audio_video` (tmp.py lines 11-23). -/
def ffmpeg_cmd (video_file audio_file output_file : String) : List String :=
  ["ffmpeg",
   "-y",
   "-i", video_file,
   "-i", audio_file,
   "-c:v", "libvpx-vp9",
   "-b:v", "2M",
   "-c:a", "libopus",
   "-b:a", "128k",
   "-map", "0:v:0",
   "-map", "1:a:0",
   output_file]

/-- The function `merge_audio_video` runs the encoder on `ffmpeg_cmd`; only the
success/failure signal is consulted (tmp.py line 24). -/
def merge_audio_video (enc : Encoder) (video_file audio_file output_file : String) :
    EncResult :=
  enc video_file audio_file output_file

/-- Path `audio_file = os.path.join(audio_subfolder, file)` (tmp.py line 52). -/
def audio_file_of (audio_subfolder file : String) : String :=
  pjoin audio_subfolder file

/-- Path `video_file`: `base_name = os.path.splitext(file)[0]` and
`video_file = os.path.join(video_subfolder, base_name + ".mp4")`
(tmp.py lines 51 and 53). -/
def video_file_of (video_subfolder file : String) : String :=
  pjoin video_subfolder (splitextBase file ++ ".mp4")

/-- Path `output_file = os.path.join(output_subfolder, base_name + ".webm")`
(tmp.py line 60). -/
def output_file_of (output_subfolder file : String) : String :=
  pjoin output_subfolder (splitextBase file ++ ".webm")

/-- Body of the inner loop of `main` for one directory entry `file`
(tmp.py lines 49-66): select it when its lowercased name ends in ".wav",
skip (with a notice) when the expected video file does not exist,
otherwise print the merging notice and invoke the encoder, catching only
`CalledProcessError` (any other exception propagates: `aborted = true`). -/
def processFile (fs : FS) (enc : Encoder)
    (audio_subfolder video_subfolder output_subfolder file : String) : RunResult :=
  if endswith (lower file) ".wav" then
    if fs.path_exists (video_file_of video_subfolder file) = false then
      ⟨[Event.fileSkipped (video_file_of video_subfolder file)
          (audio_file_of audio_subfolder file)], false⟩
    else
      match merge_audio_video enc (video_file_of video_subfolder file)
          (audio_file_of audio_subfolder file) (output_file_of output_subfolder file) with
      | EncResult.success =>
        ⟨[Event.merging (audio_file_of audio_subfolder file)
            (video_file_of video_subfolder file) (output_file_of output_subfolder file),
          Event.mergeCall (video_file_of video_subfolder file)
            (audio_file_of audio_subfolder file) (output_file_of output_subfolder file)],
         false⟩
      | EncResult.calledProcessError =>
        ⟨[Event.merging (audio_file_of audio_subfolder file)
            (video_file_of video_subfolder file) (output_file_of output_subfolder file),
          Event.mergeCall (video_file_of video_subfolder file)
            (audio_file_of audio_subfolder file) (output_file_of output_subfolder file),
          Event.mergeError (video_file_of video_subfolder file)
            (audio_file_of audio_subfolder file) (output_file_of output_subfolder file)],
         false⟩
      | EncResult.otherError =>
        ⟨[Event.merging (audio_file_of audio_subfolder file)
            (video_file_of video_subfolder file) (output_file_of output_subfolder file),
          Event.mergeCall (video_file_of video_subfolder file)
            (audio_file_of audio_subfolder file) (output_file_of output_subfolder file)],
         true⟩
  else ⟨[], false⟩

/-- The inner loop of `main` over the listing of the audio subfolder;
an uncaught exception stops the loop. -/
def processFiles (fs : FS) (enc : Encoder)
    (audio_subfolder video_subfolder output_subfolder : String) :
    List String → RunResult
  | [] => ⟨[], false⟩
  | f :: rest =>
    let r := processFile fs enc audio_subfolder video_subfolder output_subfolder f
    if r.aborted then r
    else
      let r2 := processFiles fs enc audio_subfolder video_subfolder output_subfolder rest
      ⟨r.events ++ r2.events, r2.aborted⟩

/-- Body of the outer loop of `main` for one entry of the audio root
(tmp.py lines 35-66): skip non-directories silently; create the output
subfolder (this happens BEFORE the video-subfolder existence check, line 42
before line 44); skip the whole subfolder with a notice when the video
subfolder does not exist; otherwise run the file loop. -/
def processSubfolder (fs : FS) (enc : Encoder)
    (inp_aud_dir inp_vid_dir out_vid_dir subfolder : String) : RunResult :=
  if fs.isdir (pjoin inp_aud_dir subfolder) = false then ⟨[], false⟩
  else if fs.path_exists (pjoin inp_vid_dir subfolder) = false then
    ⟨[Event.makedirs (pjoin out_vid_dir subfolder),
      Event.folderSkipped (pjoin inp_vid_dir subfolder) subfolder], false⟩
  else
    ⟨Event.makedirs (pjoin out_vid_dir subfolder) ::
       (processFiles fs enc (pjoin inp_aud_dir subfolder) (pjoin inp_vid_dir subfolder)
         (pjoin out_vid_dir subfolder) (fs.listdir (pjoin inp_aud_dir subfolder))).events,
     (processFiles fs enc (pjoin inp_aud_dir subfolder) (pjoin inp_vid_dir subfolder)
       (pjoin out_vid_dir subfolder) (fs.listdir (pjoin inp_aud_dir subfolder))).aborted⟩

/-- The outer loop of `main` over the listing of the audio root;
an uncaught exception stops the loop. -/
def processSubfolders (fs : FS) (enc : Encoder)
    (inp_aud_dir inp_vid_dir out_vid_dir : String) : List String → RunResult
  | [] => ⟨[], false⟩
  | s :: rest =>
    let r := processSubfolder fs enc inp_aud_dir inp_vid_dir out_vid_dir s
    if r.aborted then r
    else
      let r2 := processSubfolders fs enc inp_aud_dir inp_vid_dir out_vid_dir rest
      ⟨r.events ++ r2.events, r2.aborted⟩

/-- The entry point `main(inp_aud_dir, inp_vid_dir, out_vid_dir)` (tmp.py lines 27-66);
named `mainRun` because `main` is reserved for entry points in Lean. -/
def mainRun (fs : FS) (enc : Encoder) (inp_aud_dir inp_vid_dir out_vid_dir : String) :
    RunResult :=
  processSubfolders fs enc inp_aud_dir inp_vid_dir out_vid_dir (fs.listdir inp_aud_dir)

/-- An encoder that never raises anything but `CalledProcessError`:
it either exits (zero or non-zero), never e.g. fails to launch. -/
def encOK (enc : Encoder) : Prop :=
  ∀ v a o, enc v a o ≠ EncResult.otherError

/-- A directory-entry name as returned by a real `os.listdir`: non-empty
and containing no path separator. -/
def goodName (s : String) : Prop := s ≠ "" ∧ '/' ∉ s.data

/-- A root path that is non-empty and does not end in '/', so that
`pjoin` appends a single separator. -/
def goodRoot (r : String) : Prop := r.data ≠ [] ∧ r.data.getLast? ≠ some '/'

instance : DecidablePred goodName := fun s => by unfold goodName; infer_instance

instance : DecidablePred goodRoot := fun r => by unfold goodRoot; infer_instance

/-- Well-formedness of the two directory listings a run of `main` reads:
entries are real names and each listing has no duplicates. -/
def goodListings (fs : FS) (inp_aud_dir : String) : Prop :=
  (∀ s ∈ fs.listdir inp_aud_dir, goodName s) ∧ (fs.listdir inp_aud_dir).Nodup ∧
  ∀ s ∈ fs.listdir inp_aud_dir,
    (∀ f ∈ fs.listdir (pjoin inp_aud_dir s), goodName f) ∧
    (fs.listdir (pjoin inp_aud_dir s)).Nodup

/-! ### Path algebra -/

lemma goodName_data_ne_nil {s : String} (h : goodName s) : s.data ≠ [] :=
  fun hd => h.1 (String.ext hd)

lemma pjoin_data {a b : String} (ha : goodRoot a) (hb : goodName b) :
    (pjoin a b).data = a.data ++ '/' :: b.data := by
  have hhead : ¬ b.data.head? = some '/' := by
    cases hd : b.data with
    | nil => simp
    | cons c t =>
      simp only [List.head?_cons, Option.some.injEq]
      intro hc
      exact hb.2 (by rw [hd, hc]; exact List.mem_cons_self _ _)
  unfold pjoin
  rw [if_neg hhead, if_neg (by push_neg; exact ⟨ha.1, ha.2⟩)]
  simp [String.data_append]

lemma goodRoot_pjoin {a b : String} (ha : goodRoot a) (hb : goodName b) :
    goodRoot (pjoin a b) := by
  have hd := pjoin_data ha hb
  constructor
  · rw [hd]; simp
  · rw [hd]
    have hlast : (a.data ++ '/' :: b.data).getLast? = ('/' :: b.data).getLast? := by
      induction a.data with
      | nil => rfl
      | cons x xs ih =>
        rw [List.cons_append]
        cases h : xs ++ '/' :: b.data with
        | nil => exact absurd h (by simp)
        | cons y ys => rw [List.getLast?_cons_cons, ← h, ih]
    rw [hlast]
    cases hb' : b.data with
    | nil => exact absurd hb' (goodName_data_ne_nil hb)
    | cons c t =>
      rw [List.getLast?_cons_cons]
      intro hc
      exact hb.2 (by rw [hb']; exact List.mem_of_mem_getLast? hc)

lemma splitFirstSlash (a₁ : List Char) : ∀ (a₂ : List Char) {b₁ b₂ : List Char},
    '/' ∉ a₁ → '/' ∉ a₂ → a₁ ++ '/' :: b₁ = a₂ ++ '/' :: b₂ → a₁ = a₂ ∧ b₁ = b₂ := by
  induction a₁ with
  | nil =>
    intro a₂ b₁ b₂ h₁ h₂ h
    cases a₂ with
    | nil => simpa using h
    | cons c t =>
      simp only [List.nil_append, List.cons_append, List.cons.injEq] at h
      exact absurd (by rw [h.1]; exact List.mem_cons_self _ _) h₂
  | cons c t ih =>
    intro a₂ b₁ b₂ h₁ h₂ h
    cases a₂ with
    | nil =>
      simp only [List.cons_append, List.nil_append, List.cons.injEq] at h
      exact absurd (by rw [← h.1]; exact List.mem_cons_self _ _) h₁
    | cons c₂ t₂ =>
      simp only [List.cons_append, List.cons.injEq] at h
      have hrec := ih t₂ (fun hm => h₁ (List.mem_cons_of_mem _ hm))
        (fun hm => h₂ (List.mem_cons_of_mem _ hm)) h.2
      exact ⟨by rw [h.1, hrec.1], hrec.2⟩

lemma pjoin_right_inj {a b₁ b₂ : String} (ha : goodRoot a)
    (h₁ : goodName b₁) (h₂ : goodName b₂) (h : pjoin a b₁ = pjoin a b₂) : b₁ = b₂ := by
  have hd : (pjoin a b₁).data = (pjoin a b₂).data := by rw [h]
  rw [pjoin_data ha h₁, pjoin_data ha h₂] at hd
  have h' := List.append_cancel_left hd
  simp only [List.cons.injEq] at h'
  exact String.ext h'.2

lemma path_inj {r s₁ f₁ s₂ f₂ : String} (hr : goodRoot r)
    (hs₁ : goodName s₁) (hf₁ : goodName f₁) (hs₂ : goodName s₂) (hf₂ : goodName f₂)
    (h : pjoin (pjoin r s₁) f₁ = pjoin (pjoin r s₂) f₂) : s₁ = s₂ ∧ f₁ = f₂ := by
  have hd : (pjoin (pjoin r s₁) f₁).data = (pjoin (pjoin r s₂) f₂).data := by rw [h]
  rw [pjoin_data (goodRoot_pjoin hr hs₁) hf₁, pjoin_data (goodRoot_pjoin hr hs₂) hf₂,
      pjoin_data hr hs₁, pjoin_data hr hs₂] at hd
  simp only [List.append_assoc, List.cons_append] at hd
  have h' := List.append_cancel_left hd
  simp only [List.cons.injEq] at h'
  have hrec := splitFirstSlash s₁.data s₂.data hs₁.2 hs₂.2 h'.2
  exact ⟨String.ext hrec.1, String.ext hrec.2⟩

lemma slashFree_splitextBase {p : String} (h : '/' ∉ p.data) :
    '/' ∉ (splitextBase p).data := by
  unfold splitextBase
  split
  · exact h
  · split
    · exact fun hm => h (List.mem_of_mem_take hm)
    · exact h

lemma goodName_base_ext {f : String} (hf : '/' ∉ f.data) (ext : String)
    (hne : ext.data ≠ []) (hsl : '/' ∉ ext.data) : goodName (splitextBase f ++ ext) := by
  constructor
  · intro h0
    have hd : (splitextBase f ++ ext).data = [] := by rw [h0]
    rw [String.data_append] at hd
    exact hne (List.append_eq_nil.mp hd).2
  · rw [String.data_append]
    intro hm
    rcases List.mem_append.mp hm with hm | hm
    · exact slashFree_splitextBase hf hm
    · exact hsl hm

lemma append_ext_cancel {b₁ b₂ e : String} (h : b₁ ++ e = b₂ ++ e) : b₁ = b₂ := by
  have hd := congrArg String.data h
  rw [String.data_append, String.data_append] at hd
  exact String.ext (List.append_cancel_right hd)

/-- The audio-file paths of two well-formed (subfolder, entry) pairs coincide
only when the pairs coincide. -/
lemma audio_file_inj {aud s₁ f₁ s₂ f₂ : String} (haud : goodRoot aud)
    (hs₁ : goodName s₁) (hf₁ : goodName f₁) (hs₂ : goodName s₂) (hf₂ : goodName f₂)
    (h : audio_file_of (pjoin aud s₁) f₁ = audio_file_of (pjoin aud s₂) f₂) :
    s₁ = s₂ ∧ f₁ = f₂ :=
  path_inj haud hs₁ hf₁ hs₂ hf₂ h

/-- The output-file paths of two well-formed (subfolder, entry) pairs coincide
only when the subfolders and the base names coincide. -/
lemma output_file_inj {out s₁ f₁ s₂ f₂ : String} (hout : goodRoot out)
    (hs₁ : goodName s₁) (hf₁ : '/' ∉ f₁.data) (hs₂ : goodName s₂) (hf₂ : '/' ∉ f₂.data)
    (h : output_file_of (pjoin out s₁) f₁ = output_file_of (pjoin out s₂) f₂) :
    s₁ = s₂ ∧ splitextBase f₁ = splitextBase f₂ := by
  have h' := path_inj hout hs₁ (goodName_base_ext hf₁ ".webm" (by decide) (by decide))
    hs₂ (goodName_base_ext hf₂ ".webm" (by decide) (by decide)) h
  exact ⟨h'.1, append_ext_cancel h'.2⟩

/-! ### Run structure -/

lemma processFile_aborted_iff (fs : FS) (enc : Encoder) (asub vsub osub f : String) :
    (processFile fs enc asub vsub osub f).aborted = true ↔
      (endswith (lower f) ".wav" = true ∧
       fs.path_exists (video_file_of vsub f) = true ∧
       enc (video_file_of vsub f) (audio_file_of asub f) (output_file_of osub f) =
         EncResult.otherError) := by
  unfold processFile merge_audio_video
  split
  · next hsuf =>
    split
    · next hex => simp [hex, hsuf]
    · next hex =>
      split
      · next henc => simp [hsuf, henc, eq_true_of_ne_false hex]
      · next henc => simp [hsuf, henc, eq_true_of_ne_false hex]
      · next henc => simp [hsuf, henc, eq_true_of_ne_false hex]
  · next hsuf => simp [Bool.eq_false_iff.mpr hsuf]

lemma processFile_aborted_false {fs : FS} {enc : Encoder} (h : encOK enc)
    (asub vsub osub f : String) :
    (processFile fs enc asub vsub osub f).aborted = false := by
  by_contra hc
  have hab := (processFile_aborted_iff fs enc asub vsub osub f).mp
    (eq_true_of_ne_false (by simpa using hc))
  exact h _ _ _ hab.2.2

lemma mem_processFile_events {fs : FS} {enc : Encoder} {asub vsub osub f : String}
    {e : Event} (he : e ∈ (processFile fs enc asub vsub osub f).events) :
    endswith (lower f) ".wav" = true ∧
    ((fs.path_exists (video_file_of vsub f) = false ∧
        e = Event.fileSkipped (video_file_of vsub f) (audio_file_of asub f)) ∨
      (fs.path_exists (video_file_of vsub f) = true ∧
        (e = Event.merging (audio_file_of asub f) (video_file_of vsub f)
              (output_file_of osub f) ∨
         e = Event.mergeCall (video_file_of vsub f) (audio_file_of asub f)
              (output_file_of osub f) ∨
         e = Event.mergeError (video_file_of vsub f) (audio_file_of asub f)
              (output_file_of osub f)))) := by
  unfold processFile merge_audio_video at he
  split at he
  · next hsuf =>
    refine ⟨hsuf, ?_⟩
    split at he
    · next hex =>
      left
      exact ⟨hex, by simpa using he⟩
    · next hex =>
      right
      refine ⟨eq_true_of_ne_false hex, ?_⟩
      split at he <;> simp at he <;> tauto
  · next hsuf => simp at he

lemma mem_processFiles_events {fs : FS} {enc : Encoder} {asub vsub osub : String}
    {l : List String} {e : Event}
    (he : e ∈ (processFiles fs enc asub vsub osub l).events) :
    ∃ f ∈ l, e ∈ (processFile fs enc asub vsub osub f).events := by
  induction l with
  | nil => simp [processFiles] at he
  | cons f rest ih =>
    simp only [processFiles] at he
    by_cases hab : (processFile fs enc asub vsub osub f).aborted = true
    · rw [if_pos hab] at he
      exact ⟨f, List.mem_cons_self _ _, he⟩
    · rw [if_neg hab] at he
      rcases List.mem_append.mp he with h | h
      · exact ⟨f, List.mem_cons_self _ _, h⟩
      · obtain ⟨f', hf', he'⟩ := ih h
        exact ⟨f', List.mem_cons_of_mem _ hf', he'⟩

lemma processFiles_of_encOK {fs : FS} {enc : Encoder} (h : encOK enc)
    (asub vsub osub : String) (l : List String) :
    (processFiles fs enc asub vsub osub l).events =
      l.flatMap (fun f => (processFile fs enc asub vsub osub f).events) ∧
    (processFiles fs enc asub vsub osub l).aborted = false := by
  induction l with
  | nil => exact ⟨rfl, rfl⟩
  | cons f rest ih =>
    simp only [processFiles, processFile_aborted_false h, if_false, Bool.false_eq_true,
      List.flatMap_cons]
    exact ⟨by rw [ih.1], ih.2⟩

lemma mem_processSubfolder_events {fs : FS} {enc : Encoder} {aud vid out sub : String}
    {e : Event} (he : e ∈ (processSubfolder fs enc aud vid out sub).events) :
    fs.isdir (pjoin aud sub) = true ∧
    (e = Event.makedirs (pjoin out sub) ∨
     (fs.path_exists (pjoin vid sub) = false ∧
        e = Event.folderSkipped (pjoin vid sub) sub) ∨
     (fs.path_exists (pjoin vid sub) = true ∧
        ∃ f ∈ fs.listdir (pjoin aud sub),
          e ∈ (processFile fs enc (pjoin aud sub) (pjoin vid sub) (pjoin out sub)
                f).events)) := by
  unfold processSubfolder at he
  split at he
  · simp at he
  · next hdir =>
    refine ⟨eq_true_of_ne_false hdir, ?_⟩
    split at he
    · next hvs =>
      simp only [List.mem_cons, List.not_mem_nil, or_false] at he
      rcases he with rfl | rfl
      · exact Or.inl rfl
      · exact Or.inr (Or.inl ⟨hvs, rfl⟩)
    · next hvs =>
      simp only [List.mem_cons] at he
      rcases he with rfl | he
      · exact Or.inl rfl
      · exact Or.inr (Or.inr ⟨eq_true_of_ne_false hvs, mem_processFiles_events he⟩)

lemma processSubfolder_aborted_false {fs : FS} {enc : Encoder} (h : encOK enc)
    (aud vid out sub : String) :
    (processSubfolder fs enc aud vid out sub).aborted = false := by
  unfold processSubfolder
  split
  · rfl
  · split
    · rfl
    · exact (processFiles_of_encOK h _ _ _ _).2

lemma mem_processSubfolders_events {fs : FS} {enc : Encoder} {aud vid out : String}
    {l : List String} {e : Event}
    (he : e ∈ (processSubfolders fs enc aud vid out l).events) :
    ∃ sub ∈ l, e ∈ (processSubfolder fs enc aud vid out sub).events := by
  induction l with
  | nil => simp [processSubfolders] at he
  | cons s rest ih =>
    simp only [processSubfolders] at he
    by_cases hab : (processSubfolder fs enc aud vid out s).aborted = true
    · rw [if_pos hab] at he
      exact ⟨s, List.mem_cons_self _ _, he⟩
    · rw [if_neg hab] at he
      rcases List.mem_append.mp he with h | h
      · exact ⟨s, List.mem_cons_self _ _, h⟩
      · obtain ⟨s', hs', he'⟩ := ih h
        exact ⟨s', List.mem_cons_of_mem _ hs', he'⟩

lemma processSubfolders_of_encOK {fs : FS} {enc : Encoder} (h : encOK enc)
    (aud vid out : String) (l : List String) :
    (processSubfolders fs enc aud vid out l).events =
      l.flatMap (fun sub => (processSubfolder fs enc aud vid out sub).events) ∧
    (processSubfolders fs enc aud vid out l).aborted = false := by
  induction l with
  | nil => exact ⟨rfl, rfl⟩
  | cons s rest ih =>
    simp only [processSubfolders, processSubfolder_aborted_false h, if_false,
      Bool.false_eq_true, List.flatMap_cons]
    exact ⟨by rw [ih.1], ih.2⟩

lemma mem_mainRun_events {fs : FS} {enc : Encoder} {aud vid out : String} {e : Event}
    (he : e ∈ (mainRun fs enc aud vid out).events) :
    ∃ sub ∈ fs.listdir aud, e ∈ (processSubfolder fs enc aud vid out sub).events :=
  mem_processSubfolders_events he

lemma count_flatMap {α β : Type} [BEq β] (l : List α) (g : α → List β) (b : β) :
    (l.flatMap g).count b = (l.map (fun x => (g x).count b)).sum := by
  induction l with
  | nil => rfl
  | cons x xs ih => simp [List.flatMap_cons, List.count_append, ih]

lemma sum_map_eq_of_mem_nodup {α : Type} (g : α → Nat) (a : α) (l : List α)
    (hmem : a ∈ l) (hnd : l.Nodup) (hz : ∀ b ∈ l, b ≠ a → g b = 0) :
    (l.map g).sum = g a := by
  induction l with
  | nil => cases hmem
  | cons x xs ih =>
    rcases List.mem_cons.mp hmem with rfl | hmem'
    · have hzs : ∀ b ∈ xs, g b = 0 := fun b hb =>
        hz b (List.mem_cons_of_mem _ hb)
          (fun hba => (List.nodup_cons.mp hnd).1 (hba ▸ hb))
      have hsum : (xs.map g).sum = 0 :=
        List.sum_eq_zero (fun n hn => by
          obtain ⟨b, hb, rfl⟩ := List.mem_map.mp hn
          exact hzs b hb)
      simp [hsum]
    · have hx : g x = 0 := hz x (List.mem_cons_self _ _)
        (by rintro rfl; exact (List.nodup_cons.mp hnd).1 hmem')
      have := ih hmem' (List.nodup_cons.mp hnd).2
        (fun b hb hba => hz b (List.mem_cons_of_mem _ hb) hba)
      simp [hx, this]

lemma count_mainRun_of_encOK {fs : FS} {enc : Encoder} (h : encOK enc)
    (aud vid out : String) (x : Event) :
    ((mainRun fs enc aud vid out).events).count x =
      ((fs.listdir aud).map
        (fun sub => ((processSubfolder fs enc aud vid out sub).events).count x)).sum := by
  unfold mainRun
  rw [(processSubfolders_of_encOK h aud vid out _).1, count_flatMap]

/-! ### Event inversion and construction -/

lemma processFile_events_merge {fs : FS} {enc : Encoder} {asub vsub osub f : String}
    (hsuf : endswith (lower f) ".wav" = true)
    (hvf : fs.path_exists (video_file_of vsub f) = true) :
    (processFile fs enc asub vsub osub f).events =
      Event.merging (audio_file_of asub f) (video_file_of vsub f) (output_file_of osub f) ::
      Event.mergeCall (video_file_of vsub f) (audio_file_of asub f) (output_file_of osub f) ::
      (if enc (video_file_of vsub f) (audio_file_of asub f) (output_file_of osub f) =
          EncResult.calledProcessError then
        [Event.mergeError (video_file_of vsub f) (audio_file_of asub f)
          (output_file_of osub f)]
      else []) := by
  unfold processFile merge_audio_video
  rw [if_pos hsuf, if_neg (by simp [hvf])]
  split <;> next henc => simp [henc]

lemma processFile_events_skip {fs : FS} {enc : Encoder} {asub vsub osub f : String}
    (hsuf : endswith (lower f) ".wav" = true)
    (hvf : fs.path_exists (video_file_of vsub f) = false) :
    (processFile fs enc asub vsub osub f).events =
      [Event.fileSkipped (video_file_of vsub f) (audio_file_of asub f)] := by
  unfold processFile
  rw [if_pos hsuf, if_pos hvf]

lemma processFile_nonwav {fs : FS} {enc : Encoder} {asub vsub osub f : String}
    (hsuf : endswith (lower f) ".wav" = false) :
    processFile fs enc asub vsub osub f = ⟨[], false⟩ := by
  unfold processFile
  rw [if_neg (by simp [hsuf])]

lemma processSubfolder_events_pos {fs : FS} {enc : Encoder} {aud vid out sub : String}
    (hdir : fs.isdir (pjoin aud sub) = true)
    (hvs : fs.path_exists (pjoin vid sub) = true) :
    (processSubfolder fs enc aud vid out sub).events =
      Event.makedirs (pjoin out sub) ::
        (processFiles fs enc (pjoin aud sub) (pjoin vid sub) (pjoin out sub)
          (fs.listdir (pjoin aud sub))).events := by
  unfold processSubfolder
  rw [if_neg (by simp [hdir]), if_neg (by simp [hvs])]

lemma processSubfolder_events_skip {fs : FS} {enc : Encoder} {aud vid out sub : String}
    (hdir : fs.isdir (pjoin aud sub) = true)
    (hvs : fs.path_exists (pjoin vid sub) = false) :
    (processSubfolder fs enc aud vid out sub).events =
      [Event.makedirs (pjoin out sub), Event.folderSkipped (pjoin vid sub) sub] := by
  unfold processSubfolder
  rw [if_neg (by simp [hdir]), if_pos hvs]

lemma processSubfolder_nondir {fs : FS} {enc : Encoder} {aud vid out sub : String}
    (hdir : fs.isdir (pjoin aud sub) = false) :
    processSubfolder fs enc aud vid out sub = ⟨[], false⟩ := by
  unfold processSubfolder
  rw [if_pos hdir]

lemma mergeCall_mem_processFile {fs : FS} {enc : Encoder} {asub vsub osub f V A O : String}
    (he : Event.mergeCall V A O ∈ (processFile fs enc asub vsub osub f).events) :
    endswith (lower f) ".wav" = true ∧ fs.path_exists (video_file_of vsub f) = true ∧
    V = video_file_of vsub f ∧ A = audio_file_of asub f ∧ O = output_file_of osub f := by
  have h := mem_processFile_events he
  rcases h.2 with ⟨hex, heq⟩ | ⟨hex, heq | heq | heq⟩
  · exact absurd heq (by simp)
  · exact absurd heq (by simp)
  · simp only [Event.mergeCall.injEq] at heq
    exact ⟨h.1, hex, heq.1, heq.2.1, heq.2.2⟩
  · exact absurd heq (by simp)

lemma merging_mem_processFile {fs : FS} {enc : Encoder} {asub vsub osub f A V O : String}
    (he : Event.merging A V O ∈ (processFile fs enc asub vsub osub f).events) :
    endswith (lower f) ".wav" = true ∧ fs.path_exists (video_file_of vsub f) = true ∧
    A = audio_file_of asub f ∧ V = video_file_of vsub f ∧ O = output_file_of osub f := by
  have h := mem_processFile_events he
  rcases h.2 with ⟨hex, heq⟩ | ⟨hex, heq | heq | heq⟩
  · exact absurd heq (by simp)
  · simp only [Event.merging.injEq] at heq
    exact ⟨h.1, hex, heq.1, heq.2.1, heq.2.2⟩
  · exact absurd heq (by simp)
  · exact absurd heq (by simp)

lemma fileSkipped_mem_processFile {fs : FS} {enc : Encoder} {asub vsub osub f Vf Af : String}
    (he : Event.fileSkipped Vf Af ∈ (processFile fs enc asub vsub osub f).events) :
    endswith (lower f) ".wav" = true ∧ fs.path_exists (video_file_of vsub f) = false ∧
    Vf = video_file_of vsub f ∧ Af = audio_file_of asub f := by
  have h := mem_processFile_events he
  rcases h.2 with ⟨hex, heq⟩ | ⟨hex, heq | heq | heq⟩
  · simp only [Event.fileSkipped.injEq] at heq
    exact ⟨h.1, hex, heq.1, heq.2⟩
  · exact absurd heq (by simp)
  · exact absurd heq (by simp)
  · exact absurd heq (by simp)

lemma mergeCall_mem_mainRun {fs : FS} {enc : Encoder} {aud vid out V A O : String}
    (he : Event.mergeCall V A O ∈ (mainRun fs enc aud vid out).events) :
    ∃ s ∈ fs.listdir aud, ∃ f ∈ fs.listdir (pjoin aud s),
      fs.isdir (pjoin aud s) = true ∧ fs.path_exists (pjoin vid s) = true ∧
      endswith (lower f) ".wav" = true ∧
      fs.path_exists (video_file_of (pjoin vid s) f) = true ∧
      V = video_file_of (pjoin vid s) f ∧ A = audio_file_of (pjoin aud s) f ∧
      O = output_file_of (pjoin out s) f := by
  obtain ⟨s, hs, he'⟩ := mem_mainRun_events he
  have h := mem_processSubfolder_events he'
  rcases h.2 with heq | ⟨hvs, heq⟩ | ⟨hvs, f, hf, hef⟩
  · exact absurd heq (by simp)
  · exact absurd heq (by simp)
  · have hx := mergeCall_mem_processFile hef
    exact ⟨s, hs, f, hf, h.1, hvs, hx.1, hx.2.1, hx.2.2⟩

lemma merging_mem_mainRun {fs : FS} {enc : Encoder} {aud vid out A V O : String}
    (he : Event.merging A V O ∈ (mainRun fs enc aud vid out).events) :
    ∃ s ∈ fs.listdir aud, ∃ f ∈ fs.listdir (pjoin aud s),
      fs.isdir (pjoin aud s) = true ∧ fs.path_exists (pjoin vid s) = true ∧
      endswith (lower f) ".wav" = true ∧
      fs.path_exists (video_file_of (pjoin vid s) f) = true ∧
      A = audio_file_of (pjoin aud s) f ∧ V = video_file_of (pjoin vid s) f ∧
      O = output_file_of (pjoin out s) f := by
  obtain ⟨s, hs, he'⟩ := mem_mainRun_events he
  have h := mem_processSubfolder_events he'
  rcases h.2 with heq | ⟨hvs, heq⟩ | ⟨hvs, f, hf, hef⟩
  · exact absurd heq (by simp)
  · exact absurd heq (by simp)
  · have hx := merging_mem_processFile hef
    exact ⟨s, hs, f, hf, h.1, hvs, hx.1, hx.2.1, hx.2.2⟩

lemma fileSkipped_mem_mainRun {fs : FS} {enc : Encoder} {aud vid out Vf Af : String}
    (he : Event.fileSkipped Vf Af ∈ (mainRun fs enc aud vid out).events) :
    ∃ s ∈ fs.listdir aud, ∃ f ∈ fs.listdir (pjoin aud s),
      fs.isdir (pjoin aud s) = true ∧ fs.path_exists (pjoin vid s) = true ∧
      endswith (lower f) ".wav" = true ∧
      fs.path_exists (video_file_of (pjoin vid s) f) = false ∧
      Vf = video_file_of (pjoin vid s) f ∧ Af = audio_file_of (pjoin aud s) f := by
  obtain ⟨s, hs, he'⟩ := mem_mainRun_events he
  have h := mem_processSubfolder_events he'
  rcases h.2 with heq | ⟨hvs, heq⟩ | ⟨hvs, f, hf, hef⟩
  · exact absurd heq (by simp)
  · exact absurd heq (by simp)
  · have hx := fileSkipped_mem_processFile hef
    exact ⟨s, hs, f, hf, h.1, hvs, hx.1, hx.2.1, hx.2.2⟩

lemma folderSkipped_mem_mainRun {fs : FS} {enc : Encoder} {aud vid out X s : String}
    (he : Event.folderSkipped X s ∈ (mainRun fs enc aud vid out).events) :
    s ∈ fs.listdir aud ∧ fs.isdir (pjoin aud s) = true ∧
    fs.path_exists (pjoin vid s) = false ∧ X = pjoin vid s := by
  obtain ⟨s', hs', he'⟩ := mem_mainRun_events he
  have h := mem_processSubfolder_events he'
  rcases h.2 with heq | ⟨hvs, heq⟩ | ⟨hvs, f, hf, hef⟩
  · exact absurd heq (by simp)
  · simp only [Event.folderSkipped.injEq] at heq
    obtain ⟨rfl, rfl⟩ := heq
    exact ⟨hs', h.1, hvs, rfl⟩
  · have hx := mem_processFile_events hef
    rcases hx.2 with ⟨_, heq⟩ | ⟨_, heq | heq | heq⟩ <;> exact absurd heq (by simp)

lemma mainRun_events_flatMap {fs : FS} {enc : Encoder} (h : encOK enc)
    (aud vid out : String) :
    (mainRun fs enc aud vid out).events =
      (fs.listdir aud).flatMap
        (fun sub => (processSubfolder fs enc aud vid out sub).events) :=
  (processSubfolders_of_encOK h aud vid out _).1

lemma mergeCall_mem_of {fs : FS} {enc : Encoder} {aud vid out sub f : String}
    (h : encOK enc) (hsub : sub ∈ fs.listdir aud)
    (hdir : fs.isdir (pjoin aud sub) = true)
    (hvs : fs.path_exists (pjoin vid sub) = true)
    (hf : f ∈ fs.listdir (pjoin aud sub))
    (hsuf : endswith (lower f) ".wav" = true)
    (hvf : fs.path_exists (video_file_of (pjoin vid sub) f) = true) :
    Event.mergeCall (video_file_of (pjoin vid sub) f) (audio_file_of (pjoin aud sub) f)
        (output_file_of (pjoin out sub) f) ∈ (mainRun fs enc aud vid out).events := by
  rw [mainRun_events_flatMap h]
  refine List.mem_flatMap.mpr ⟨sub, hsub, ?_⟩
  rw [processSubfolder_events_pos hdir hvs]
  refine List.mem_cons_of_mem _ ?_
  rw [(processFiles_of_encOK h _ _ _ _).1]
  refine List.mem_flatMap.mpr ⟨f, hf, ?_⟩
  rw [processFile_events_merge hsuf hvf]
  exact List.mem_cons_of_mem _ (List.mem_cons_self _ _)

lemma merging_mem_of {fs : FS} {enc : Encoder} {aud vid out sub f : String}
    (h : encOK enc) (hsub : sub ∈ fs.listdir aud)
    (hdir : fs.isdir (pjoin aud sub) = true)
    (hvs : fs.path_exists (pjoin vid sub) = true)
    (hf : f ∈ fs.listdir (pjoin aud sub))
    (hsuf : endswith (lower f) ".wav" = true)
    (hvf : fs.path_exists (video_file_of (pjoin vid sub) f) = true) :
    Event.merging (audio_file_of (pjoin aud sub) f) (video_file_of (pjoin vid sub) f)
        (output_file_of (pjoin out sub) f) ∈ (mainRun fs enc aud vid out).events := by
  rw [mainRun_events_flatMap h]
  refine List.mem_flatMap.mpr ⟨sub, hsub, ?_⟩
  rw [processSubfolder_events_pos hdir hvs]
  refine List.mem_cons_of_mem _ ?_
  rw [(processFiles_of_encOK h _ _ _ _).1]
  refine List.mem_flatMap.mpr ⟨f, hf, ?_⟩
  rw [processFile_events_merge hsuf hvf]
  exact List.mem_cons_self _ _

lemma fileSkipped_mem_of {fs : FS} {enc : Encoder} {aud vid out sub f : String}
    (h : encOK enc) (hsub : sub ∈ fs.listdir aud)
    (hdir : fs.isdir (pjoin aud sub) = true)
    (hvs : fs.path_exists (pjoin vid sub) = true)
    (hf : f ∈ fs.listdir (pjoin aud sub))
    (hsuf : endswith (lower f) ".wav" = true)
    (hvf : fs.path_exists (video_file_of (pjoin vid sub) f) = false) :
    Event.fileSkipped (video_file_of (pjoin vid sub) f) (audio_file_of (pjoin aud sub) f) ∈
      (mainRun fs enc aud vid out).events := by
  rw [mainRun_events_flatMap h]
  refine List.mem_flatMap.mpr ⟨sub, hsub, ?_⟩
  rw [processSubfolder_events_pos hdir hvs]
  refine List.mem_cons_of_mem _ ?_
  rw [(processFiles_of_encOK h _ _ _ _).1]
  refine List.mem_flatMap.mpr ⟨f, hf, ?_⟩
  rw [processFile_events_skip hsuf hvf]
  exact List.mem_cons_self _ _

lemma makedirs_mem_of {fs : FS} {enc : Encoder} {aud vid out sub : String}
    (h : encOK enc) (hsub : sub ∈ fs.listdir aud)
    (hdir : fs.isdir (pjoin aud sub) = true) :
    Event.makedirs (pjoin out sub) ∈ (mainRun fs enc aud vid out).events := by
  rw [mainRun_events_flatMap h]
  refine List.mem_flatMap.mpr ⟨sub, hsub, ?_⟩
  by_cases hvs : fs.path_exists (pjoin vid sub) = true
  · rw [processSubfolder_events_pos hdir hvs]
    exact List.mem_cons_self _ _
  · rw [processSubfolder_events_skip hdir (by simpa using hvs)]
    exact List.mem_cons_self _ _

lemma folderSkipped_mem_of {fs : FS} {enc : Encoder} {aud vid out sub : String}
    (h : encOK enc) (hsub : sub ∈ fs.listdir aud)
    (hdir : fs.isdir (pjoin aud sub) = true)
    (hvs : fs.path_exists (pjoin vid sub) = false) :
    Event.folderSkipped (pjoin vid sub) sub ∈ (mainRun fs enc aud vid out).events := by
  rw [mainRun_events_flatMap h]
  refine List.mem_flatMap.mpr ⟨sub, hsub, ?_⟩
  rw [processSubfolder_events_skip hdir hvs]
  exact List.mem_cons_of_mem _ (List.mem_cons_self _ _)

lemma count_mergeCall_processFile_self {fs : FS} {enc : Encoder} {asub vsub osub f : String}
    (hsuf : endswith (lower f) ".wav" = true)
    (hvf : fs.path_exists (video_file_of vsub f) = true) :
    ((processFile fs enc asub vsub osub f).events).count
      (Event.mergeCall (video_file_of vsub f) (audio_file_of asub f)
        (output_file_of osub f)) = 1 := by
  rw [processFile_events_merge hsuf hvf]
  split <;> simp [List.count_cons]

/-- C1: for a subdirectory present in both roots and a `.wav` entry with a
matching video file, the run issues exactly one merge invocation, and its
three paths are audio root/subdir/file, video root/subdir/base.mp4 and
output root/subdir/base.webm. -/
theorem merge_invoked_exactly_once
    (fs : FS) (enc : Encoder) (aud vid out sub f : String)
    (hok : encOK enc) (haud : goodRoot aud) (hls : goodListings fs aud)
    (hsub : sub ∈ fs.listdir aud)
    (hdir : fs.isdir (pjoin aud sub) = true)
    (hvs : fs.path_exists (pjoin vid sub) = true)
    (hf : f ∈ fs.listdir (pjoin aud sub))
    (hsuf : endswith (lower f) ".wav" = true)
    (hvf : fs.path_exists (video_file_of (pjoin vid sub) f) = true) :
    ((mainRun fs enc aud vid out).events).count
      (Event.mergeCall (video_file_of (pjoin vid sub) f)
        (audio_file_of (pjoin aud sub) f) (output_file_of (pjoin out sub) f)) = 1 := by
  obtain ⟨hname, hnd, hsubls⟩ := hls
  rw [count_mainRun_of_encOK hok]
  rw [sum_map_eq_of_mem_nodup _ sub _ hsub hnd ?_]
  · rw [processSubfolder_events_pos hdir hvs]
    rw [List.count_cons_of_ne (by simp)]
    rw [(processFiles_of_encOK hok _ _ _ _).1, count_flatMap]
    rw [sum_map_eq_of_mem_nodup _ f _ hf (hsubls sub hsub).2 ?_]
    · exact count_mergeCall_processFile_self hsuf hvf
    · intro f' hf' hne
      refine List.count_eq_zero.mpr (fun hmem => ?_)
      have hx := mergeCall_mem_processFile hmem
      have heq := pjoin_right_inj (goodRoot_pjoin haud (hname sub hsub))
        ((hsubls sub hsub).1 f hf) ((hsubls sub hsub).1 f' hf') hx.2.2.2.1
      exact hne heq.symm
  · intro s' hs' hne
    refine List.count_eq_zero.mpr (fun hmem => ?_)
    have h := mem_processSubfolder_events hmem
    rcases h.2 with heq | ⟨_, heq⟩ | ⟨hvs', f', hf', hef⟩
    · exact absurd heq (by simp)
    · exact absurd heq (by simp)
    · have hx := mergeCall_mem_processFile hef
      have heq := audio_file_inj haud (hname sub hsub) ((hsubls sub hsub).1 f hf)
        (hname s' hs') ((hsubls s' hs').1 f' hf') hx.2.2.2.1
      exact hne heq.1.symm

instance (fs : FS) (aud : String) : Decidable (goodListings fs aud) := by
  unfold goodListings; infer_instance

/-- An encoder that always succeeds. -/
def encS : Encoder := fun _ _ _ => EncResult.success

lemma encOK_encS : encOK encS := fun _ _ _ h => EncResult.noConfusion h

/-- Concrete filesystem: audio root `/a` with subdirectory `A` holding
`1.wav`; video root `/v` with `A/1.mp4`. -/
def fsC1 : FS where
  listdir := fun d => if d = "/a" then ["A"] else if d = "/a/A" then ["1.wav"] else []
  isdir := fun p => p = "/a/A"
  path_exists := fun p => p = "/v/A" || p = "/v/A/1.mp4"

/-- Witness for `merge_invoked_exactly_once` at a concrete filesystem. -/
theorem merge_invoked_exactly_once_witness :
    ((mainRun fsC1 encS "/a" "/v" "/o").events).count
      (Event.mergeCall (video_file_of (pjoin "/v" "A") "1.wav")
        (audio_file_of (pjoin "/a" "A") "1.wav")
        (output_file_of (pjoin "/o" "A") "1.wav")) = 1 :=
  merge_invoked_exactly_once fsC1 encS "/a" "/v" "/o" "A" "1.wav"
    encOK_encS (by decide) (by decide) (by decide) (by decide) (by decide)
    (by decide) (by decide) (by decide)

/-- C2 (amended): for a subdirectory of the audio root whose computed video
subdirectory does not exist, exactly one folder-skipped notice naming it is
emitted and no merge invocation is issued for files of that subdirectory;
however, contrary to the original claim, the output subdirectory IS created
for it, because `os.makedirs` (tmp.py line 42) runs before the existence
check (line 44). -/
theorem folder_skipped_notice_and_no_merges
    (fs : FS) (enc : Encoder) (aud vid out sub : String)
    (hok : encOK enc) (haud : goodRoot aud) (hls : goodListings fs aud)
    (hsub : sub ∈ fs.listdir aud)
    (hdir : fs.isdir (pjoin aud sub) = true)
    (hvs : fs.path_exists (pjoin vid sub) = false) :
    ((mainRun fs enc aud vid out).events).count
        (Event.folderSkipped (pjoin vid sub) sub) = 1 ∧
    (∀ g V O, goodName g →
        Event.mergeCall V (audio_file_of (pjoin aud sub) g) O ∉
          (mainRun fs enc aud vid out).events) ∧
    Event.makedirs (pjoin out sub) ∈ (mainRun fs enc aud vid out).events := by
  obtain ⟨hname, hnd, hsubls⟩ := hls
  refine ⟨?_, ?_, makedirs_mem_of hok hsub hdir⟩
  · rw [count_mainRun_of_encOK hok]
    rw [sum_map_eq_of_mem_nodup _ sub _ hsub hnd ?_]
    · rw [processSubfolder_events_skip hdir hvs]
      simp [List.count_cons]
    · intro s' hs' hne
      refine List.count_eq_zero.mpr (fun hmem => ?_)
      have h := mem_processSubfolder_events hmem
      rcases h.2 with heq | ⟨hvs', heq⟩ | ⟨hvs', f', hf', hef⟩
      · exact absurd heq (by simp)
      · simp only [Event.folderSkipped.injEq] at heq
        exact hne heq.2.symm
      · have hx := mem_processFile_events hef
        rcases hx.2 with ⟨_, heq⟩ | ⟨_, heq | heq | heq⟩ <;> exact absurd heq (by simp)
  · intro g V O hg hmem
    obtain ⟨s', hs', f', hf', hdir', hvs', hsuf', hvf', hV, hA, hO⟩ :=
      mergeCall_mem_mainRun hmem
    have heq := audio_file_inj haud (hname sub hsub) hg (hname s' hs')
      ((hsubls s' hs').1 f' hf') hA
    rw [← heq.1] at hvs'
    rw [hvs] at hvs'
    exact Bool.false_ne_true hvs'

/-- Concrete filesystem for C2: `/a/B` is a directory, `/v/B` is missing. -/
def fsC2 : FS where
  listdir := fun d => if d = "/a" then ["B"] else []
  isdir := fun p => p = "/a/B"
  path_exists := fun _ => false

/-- C2 counterexample: with the video subfolder `/v/B` missing, the
folder-skipped notice is emitted — but the output subdirectory `/o/B` IS
created, refuting the claim that no output subdirectory is created for a
skipped subdirectory. -/
theorem folder_skip_creates_output_subdir_cex :
    fsC2.path_exists (pjoin "/v" "B") = false ∧
    Event.folderSkipped (pjoin "/v" "B") "B" ∈
      (mainRun fsC2 encS "/a" "/v" "/o").events ∧
    Event.makedirs (pjoin "/o" "B") ∈ (mainRun fsC2 encS "/a" "/v" "/o").events := by
  decide

/-- Witness for `folder_skipped_notice_and_no_merges` at a concrete
filesystem. -/
theorem folder_skipped_notice_and_no_merges_witness :
    ((mainRun fsC2 encS "/a" "/v" "/o").events).count
        (Event.folderSkipped (pjoin "/v" "B") "B") = 1 ∧
    (∀ g V O, goodName g →
        Event.mergeCall V (audio_file_of (pjoin "/a" "B") g) O ∉
          (mainRun fsC2 encS "/a" "/v" "/o").events) ∧
    Event.makedirs (pjoin "/o" "B") ∈ (mainRun fsC2 encS "/a" "/v" "/o").events :=
  folder_skipped_notice_and_no_merges fsC2 encS "/a" "/v" "/o" "B" encOK_encS
    (by decide) (by decide) (by decide) (by decide) (by decide)

/-- C4: for a `.wav` entry of a processed subdirectory whose expected video
counterpart does not exist, exactly one file-skipped notice naming both
paths is emitted, and no merge invocation targets that base name's output
file (so no output file for that base name is produced). -/
theorem file_skipped_notice_and_no_merge
    (fs : FS) (enc : Encoder) (aud vid out sub f : String)
    (hok : encOK enc) (haud : goodRoot aud) (hout : goodRoot out)
    (hls : goodListings fs aud)
    (hsub : sub ∈ fs.listdir aud)
    (hdir : fs.isdir (pjoin aud sub) = true)
    (hvs : fs.path_exists (pjoin vid sub) = true)
    (hf : f ∈ fs.listdir (pjoin aud sub))
    (hsuf : endswith (lower f) ".wav" = true)
    (hvf : fs.path_exists (video_file_of (pjoin vid sub) f) = false) :
    ((mainRun fs enc aud vid out).events).count
        (Event.fileSkipped (video_file_of (pjoin vid sub) f)
          (audio_file_of (pjoin aud sub) f)) = 1 ∧
    (∀ V A, Event.mergeCall V A (output_file_of (pjoin out sub) f) ∉
        (mainRun fs enc aud vid out).events) := by
  obtain ⟨hname, hnd, hsubls⟩ := hls
  constructor
  · rw [count_mainRun_of_encOK hok]
    rw [sum_map_eq_of_mem_nodup _ sub _ hsub hnd ?_]
    · rw [processSubfolder_events_pos hdir hvs]
      rw [List.count_cons_of_ne (by simp)]
      rw [(processFiles_of_encOK hok _ _ _ _).1, count_flatMap]
      rw [sum_map_eq_of_mem_nodup _ f _ hf (hsubls sub hsub).2 ?_]
      · rw [processFile_events_skip hsuf hvf]
        simp
      · intro f' hf' hne
        refine List.count_eq_zero.mpr (fun hmem => ?_)
        have hx := fileSkipped_mem_processFile hmem
        have heq := pjoin_right_inj (goodRoot_pjoin haud (hname sub hsub))
          ((hsubls sub hsub).1 f hf) ((hsubls sub hsub).1 f' hf') hx.2.2.2
        exact hne heq.symm
    · intro s' hs' hne
      refine List.count_eq_zero.mpr (fun hmem => ?_)
      have h := mem_processSubfolder_events hmem
      rcases h.2 with heq | ⟨_, heq⟩ | ⟨hvs', f', hf', hef⟩
      · exact absurd heq (by simp)
      · exact absurd heq (by simp)
      · have hx := fileSkipped_mem_processFile hef
        have heq := audio_file_inj haud (hname sub hsub) ((hsubls sub hsub).1 f hf)
          (hname s' hs') ((hsubls s' hs').1 f' hf') hx.2.2.2
        exact hne heq.1.symm
  · intro V A hmem
    obtain ⟨s', hs', f', hf', hdir', hvs', hsuf', hvf', hV, hA, hO⟩ :=
      mergeCall_mem_mainRun hmem
    have heq := output_file_inj hout (hname sub hsub) ((hsubls sub hsub).1 f hf).2
      (hname s' hs') ((hsubls s' hs').1 f' hf').2 hO
    have hvfe : video_file_of (pjoin vid s') f' = video_file_of (pjoin vid sub) f := by
      unfold video_file_of
      rw [← heq.1, ← heq.2]
    rw [hvfe, hvf] at hvf'
    exact Bool.false_ne_true hvf'

/-- Concrete filesystem for C4: `/a/A/1.wav` exists, `/v/A` exists but
holds no `1.mp4`. -/
def fsC4 : FS where
  listdir := fun d => if d = "/a" then ["A"] else if d = "/a/A" then ["1.wav"] else []
  isdir := fun p => p = "/a/A"
  path_exists := fun p => p = "/v/A"

/-- Witness for `file_skipped_notice_and_no_merge` at a concrete
filesystem. -/
theorem file_skipped_notice_and_no_merge_witness :
    ((mainRun fsC4 encS "/a" "/v" "/o").events).count
        (Event.fileSkipped (video_file_of (pjoin "/v" "A") "1.wav")
          (audio_file_of (pjoin "/a" "A") "1.wav")) = 1 ∧
    (∀ V A, Event.mergeCall V A (output_file_of (pjoin "/o" "A") "1.wav") ∉
        (mainRun fsC4 encS "/a" "/v" "/o").events) :=
  file_skipped_notice_and_no_merge fsC4 encS "/a" "/v" "/o" "A" "1.wav" encOK_encS
    (by decide) (by decide) (by decide) (by decide) (by decide) (by decide)
    (by decide) (by decide) (by decide)

/-- C5 (amended): an entry of a processed audio subdirectory is an audio
candidate iff its lowercased name ends in ".wav"; its base name follows
`os.path.splitext` — the name minus its last-dot extension, except that the
leading dot of a name never starts an extension (so the entry ".wav" keeps
base ".wav", not ""); the expected video path is that base plus the exact
suffix ".mp4" inside the video subdirectory. -/
theorem audio_candidate_selection
    (fs : FS) (enc : Encoder) (aud vid out sub f : String)
    (hok : encOK enc) (haud : goodRoot aud) (hls : goodListings fs aud)
    (hsub : sub ∈ fs.listdir aud)
    (hdir : fs.isdir (pjoin aud sub) = true)
    (hvs : fs.path_exists (pjoin vid sub) = true)
    (hf : f ∈ fs.listdir (pjoin aud sub)) :
    (endswith (lower f) ".wav" = false →
      (∀ V O, Event.merging (audio_file_of (pjoin aud sub) f) V O ∉
          (mainRun fs enc aud vid out).events) ∧
      (∀ V, Event.fileSkipped V (audio_file_of (pjoin aud sub) f) ∉
          (mainRun fs enc aud vid out).events)) ∧
    (endswith (lower f) ".wav" = true →
      (fs.path_exists (video_file_of (pjoin vid sub) f) = true →
        Event.merging (audio_file_of (pjoin aud sub) f)
          (video_file_of (pjoin vid sub) f) (output_file_of (pjoin out sub) f) ∈
          (mainRun fs enc aud vid out).events) ∧
      (fs.path_exists (video_file_of (pjoin vid sub) f) = false →
        Event.fileSkipped (video_file_of (pjoin vid sub) f)
          (audio_file_of (pjoin aud sub) f) ∈ (mainRun fs enc aud vid out).events)) := by
  obtain ⟨hname, hnd, hsubls⟩ := hls
  constructor
  · intro hsuf
    constructor
    · intro V O hmem
      obtain ⟨s', hs', f', hf', _, _, hsuf', _, hA, _, _⟩ := merging_mem_mainRun hmem
      have heq := audio_file_inj haud (hname sub hsub) ((hsubls sub hsub).1 f hf)
        (hname s' hs') ((hsubls s' hs').1 f' hf') hA
      rw [← heq.2, hsuf] at hsuf'
      exact Bool.false_ne_true hsuf'
    · intro V hmem
      obtain ⟨s', hs', f', hf', _, _, hsuf', _, _, hA⟩ := fileSkipped_mem_mainRun hmem
      have heq := audio_file_inj haud (hname sub hsub) ((hsubls sub hsub).1 f hf)
        (hname s' hs') ((hsubls s' hs').1 f' hf') hA
      rw [← heq.2, hsuf] at hsuf'
      exact Bool.false_ne_true hsuf'
  · intro hsuf
    exact ⟨fun hvf => merging_mem_of hok hsub hdir hvs hf hsuf hvf,
           fun hvf => fileSkipped_mem_of hok hsub hdir hvs hf hsuf hvf⟩

/-- Concrete filesystem for C5: the audio subdirectory holds the single
entry ".wav"; the video subdirectory exists and holds ".wav.mp4" but no
".mp4". -/
def fsC5 : FS where
  listdir := fun d => if d = "/a" then ["A"] else if d = "/a/A" then [".wav"] else []
  isdir := fun p => p = "/a/A"
  path_exists := fun p => p = "/v/A" || p = "/v/A/.wav.mp4"

/-- C5 counterexample: the entry ".wav" is selected (its lowercased name
ends in ".wav"), but its base name is ".wav", not the claim's "full name
minus the extension" (which would be "" with expected video "/v/A/.mp4"):
the run pairs it with "/v/A/.wav.mp4" and never consults "/v/A/.mp4". -/
theorem audio_candidate_selection_cex :
    endswith (lower ".wav") ".wav" = true ∧
    splitextBase ".wav" = ".wav" ∧
    fsC5.path_exists "/v/A/.mp4" = false ∧
    Event.fileSkipped "/v/A/.mp4" "/a/A/.wav" ∉
      (mainRun fsC5 encS "/a" "/v" "/o").events ∧
    Event.merging "/a/A/.wav" "/v/A/.wav.mp4" "/o/A/.wav.webm" ∈
      (mainRun fsC5 encS "/a" "/v" "/o").events := by
  decide

/-- Witness for `audio_candidate_selection` at a concrete filesystem. -/
theorem audio_candidate_selection_witness :
    (endswith (lower ".wav") ".wav" = false →
      (∀ V O, Event.merging (audio_file_of (pjoin "/a" "A") ".wav") V O ∉
          (mainRun fsC5 encS "/a" "/v" "/o").events) ∧
      (∀ V, Event.fileSkipped V (audio_file_of (pjoin "/a" "A") ".wav") ∉
          (mainRun fsC5 encS "/a" "/v" "/o").events)) ∧
    (endswith (lower ".wav") ".wav" = true →
      (fsC5.path_exists (video_file_of (pjoin "/v" "A") ".wav") = true →
        Event.merging (audio_file_of (pjoin "/a" "A") ".wav")
          (video_file_of (pjoin "/v" "A") ".wav")
          (output_file_of (pjoin "/o" "A") ".wav") ∈
          (mainRun fsC5 encS "/a" "/v" "/o").events) ∧
      (fsC5.path_exists (video_file_of (pjoin "/v" "A") ".wav") = false →
        Event.fileSkipped (video_file_of (pjoin "/v" "A") ".wav")
          (audio_file_of (pjoin "/a" "A") ".wav") ∈
          (mainRun fsC5 encS "/a" "/v" "/o").events)) :=
  audio_candidate_selection fsC5 encS "/a" "/v" "/o" "A" ".wav" encOK_encS
    (by decide) (by decide) (by decide) (by decide) (by decide) (by decide)

/-- C7 (amended): a subdirectory of the audio root colliding with a
non-directory entry of the same name in the video root passes the
existence-only check (`os.path.exists`, not `os.path.isdir`): no
folder-skipped notice is emitted for it and the file loop runs; each `.wav`
candidate whose expected video file path does not exist (the case when the
colliding entry is not a directory) gets a file-skipped notice and no merge
invocation. -/
theorem nondir_collision_proceeds
    (fs : FS) (enc : Encoder) (aud vid out sub : String)
    (hok : encOK enc) (haud : goodRoot aud) (hls : goodListings fs aud)
    (hsub : sub ∈ fs.listdir aud)
    (hdir : fs.isdir (pjoin aud sub) = true)
    (hvs : fs.path_exists (pjoin vid sub) = true)
    (hvtype : fs.isdir (pjoin vid sub) = false) :
    Event.folderSkipped (pjoin vid sub) sub ∉ (mainRun fs enc aud vid out).events ∧
    (∀ f ∈ fs.listdir (pjoin aud sub), endswith (lower f) ".wav" = true →
      fs.path_exists (video_file_of (pjoin vid sub) f) = false →
      Event.fileSkipped (video_file_of (pjoin vid sub) f)
          (audio_file_of (pjoin aud sub) f) ∈ (mainRun fs enc aud vid out).events ∧
      (∀ V O, Event.mergeCall V (audio_file_of (pjoin aud sub) f) O ∉
          (mainRun fs enc aud vid out).events)) := by
  obtain ⟨hname, hndp, hsubls⟩ := hls
  constructor
  · intro hmem
    have hx := folderSkipped_mem_mainRun hmem
    rw [hvs] at hx
    exact Bool.noConfusion hx.2.2.1
  · intro f hf hsuf hvf
    refine ⟨fileSkipped_mem_of hok hsub hdir hvs hf hsuf hvf, ?_⟩
    intro V O hmem
    obtain ⟨s', hs', f', hf', hdir', hvs', hsuf', hvf', hV, hA, hO⟩ :=
      mergeCall_mem_mainRun hmem
    have heq := audio_file_inj haud (hname sub hsub) ((hsubls sub hsub).1 f hf)
      (hname s' hs') ((hsubls s' hs').1 f' hf') hA
    rw [← heq.1, ← heq.2] at hvf'
    rw [hvf] at hvf'
    exact Bool.false_ne_true hvf'

/-- Concrete filesystem for C7: the video root has a non-directory entry
`/v/A` (it exists but is not a directory) colliding with the audio
subdirectory name `A`. -/
def fsC7 : FS where
  listdir := fun d => if d = "/a" then ["A"] else if d = "/a/A" then ["1.wav"] else []
  isdir := fun p => p = "/a/A"
  path_exists := fun p => p = "/v/A"

/-- C7 counterexample: with `/v/A` an existing non-directory, the run emits
NO folder-skipped notice (the check is `os.path.exists` only) and proceeds
into the file loop, refuting the claim that the collision is treated as
"video folder not found". -/
theorem nondir_collision_cex :
    fsC7.path_exists "/v/A" = true ∧
    fsC7.isdir "/v/A" = false ∧
    Event.folderSkipped "/v/A" "A" ∉ (mainRun fsC7 encS "/a" "/v" "/o").events ∧
    Event.fileSkipped "/v/A/1.mp4" "/a/A/1.wav" ∈
      (mainRun fsC7 encS "/a" "/v" "/o").events := by
  decide

/-- Witness for `nondir_collision_proceeds` at a concrete filesystem. -/
theorem nondir_collision_proceeds_witness :
    Event.folderSkipped (pjoin "/v" "A") "A" ∉
      (mainRun fsC7 encS "/a" "/v" "/o").events ∧
    (∀ f ∈ fsC7.listdir (pjoin "/a" "A"), endswith (lower f) ".wav" = true →
      fsC7.path_exists (video_file_of (pjoin "/v" "A") f) = false →
      Event.fileSkipped (video_file_of (pjoin "/v" "A") f)
          (audio_file_of (pjoin "/a" "A") f) ∈
          (mainRun fsC7 encS "/a" "/v" "/o").events ∧
      (∀ V O, Event.mergeCall V (audio_file_of (pjoin "/a" "A") f) O ∉
          (mainRun fsC7 encS "/a" "/v" "/o").events)) :=
  nondir_collision_proceeds fsC7 encS "/a" "/v" "/o" "A" encOK_encS
    (by decide) (by decide) (by decide) (by decide) (by decide) (by decide)

/-- C8: an empty audio root produces no events at all (no pairs, no
notices); an entry of the audio root that is not a directory is ignored
silently — its iteration contributes no event whatsoever (no notice, no
invocation, no `makedirs`), and the run over a listing starting with such
an entry equals the run over the remaining entries. -/
theorem empty_root_and_nondir_entries
    (fs : FS) (enc : Encoder) (aud vid out : String) :
    (fs.listdir aud = [] → mainRun fs enc aud vid out = ⟨[], false⟩) ∧
    (∀ e, fs.isdir (pjoin aud e) = false →
      processSubfolder fs enc aud vid out e = ⟨[], false⟩) ∧
    (∀ e rest, fs.listdir aud = e :: rest → fs.isdir (pjoin aud e) = false →
      mainRun fs enc aud vid out = processSubfolders fs enc aud vid out rest) := by
  refine ⟨?_, ?_, ?_⟩
  · intro h
    unfold mainRun
    rw [h]
    rfl
  · intro e he
    exact processSubfolder_nondir he
  · intro e rest hl he
    unfold mainRun
    rw [hl]
    simp only [processSubfolders, processSubfolder_nondir he]
    rfl

/-- Concrete filesystem for C8: everything empty, nothing is a directory. -/
def fsC8 : FS where
  listdir := fun d => if d = "/b" then ["stray.txt"] else []
  isdir := fun _ => false
  path_exists := fun _ => false

/-- Witness for `empty_root_and_nondir_entries` at concrete inputs: an
empty audio root gives the empty run, and a non-directory entry
contributes nothing. -/
theorem empty_root_and_nondir_entries_witness :
    mainRun fsC8 encS "/a" "/v" "/o" = ⟨[], false⟩ ∧
    processSubfolder fsC8 encS "/b" "/v" "/o" "stray.txt" = ⟨[], false⟩ ∧
    mainRun fsC8 encS "/b" "/v" "/o" = processSubfolders fsC8 encS "/b" "/v" "/o" [] :=
  ⟨(empty_root_and_nondir_entries fsC8 encS "/a" "/v" "/o").1 (by decide),
   (empty_root_and_nondir_entries fsC8 encS "/b" "/v" "/o").2.1 "stray.txt" (by decide),
   (empty_root_and_nondir_entries fsC8 encS "/b" "/v" "/o").2.2 "stray.txt" []
     (by decide) (by decide)⟩

/-- The merge invocations recorded in an event list. -/
def mergeCalls (l : List Event) : List Event :=
  l.filter (fun e => match e with | Event.mergeCall _ _ _ => true | _ => false)

lemma mergeCalls_append (l₁ l₂ : List Event) :
    mergeCalls (l₁ ++ l₂) = mergeCalls l₁ ++ mergeCalls l₂ := by
  simp [mergeCalls]

lemma mergeCalls_processFile_indep (fs : FS) (enc : Encoder)
    (asub vsub osub f : String) :
    mergeCalls ((processFile fs enc asub vsub osub f).events) =
      mergeCalls ((processFile fs encS asub vsub osub f).events) := by
  by_cases hsuf : endswith (lower f) ".wav" = true
  · by_cases hvf : fs.path_exists (video_file_of vsub f) = true
    · rw [processFile_events_merge hsuf hvf, processFile_events_merge hsuf hvf]
      unfold mergeCalls
      split <;> simp [List.filter]
    · rw [processFile_events_skip hsuf (by simpa using hvf),
          processFile_events_skip hsuf (by simpa using hvf)]
  · rw [processFile_nonwav (by simpa using hsuf), processFile_nonwav (by simpa using hsuf)]

lemma mergeCalls_processSubfolder_indep {fs : FS} {enc : Encoder} (h : encOK enc)
    (aud vid out sub : String) :
    mergeCalls ((processSubfolder fs enc aud vid out sub).events) =
      mergeCalls ((processSubfolder fs encS aud vid out sub).events) := by
  by_cases hdir : fs.isdir (pjoin aud sub) = true
  · by_cases hvs : fs.path_exists (pjoin vid sub) = true
    · rw [processSubfolder_events_pos hdir hvs, processSubfolder_events_pos hdir hvs]
      rw [(processFiles_of_encOK h _ _ _ _).1, (processFiles_of_encOK encOK_encS _ _ _ _).1]
      unfold mergeCalls
      rw [List.filter_cons_of_neg (by simp), List.filter_cons_of_neg (by simp)]
      induction (fs.listdir (pjoin aud sub)) with
      | nil => rfl
      | cons x xs ih =>
        rw [List.flatMap_cons, List.flatMap_cons, List.filter_append, List.filter_append, ih]
        have := mergeCalls_processFile_indep fs enc (pjoin aud sub) (pjoin vid sub)
          (pjoin out sub) x
        unfold mergeCalls at this
        rw [this]
    · rw [processSubfolder_events_skip hdir (by simpa using hvs),
          processSubfolder_events_skip hdir (by simpa using hvs)]
  · rw [processSubfolder_nondir (by simpa using hdir),
        processSubfolder_nondir (by simpa using hdir)]

lemma mergeError_mem_of {fs : FS} {enc : Encoder} {aud vid out sub f : String}
    (h : encOK enc) (hsub : sub ∈ fs.listdir aud)
    (hdir : fs.isdir (pjoin aud sub) = true)
    (hvs : fs.path_exists (pjoin vid sub) = true)
    (hf : f ∈ fs.listdir (pjoin aud sub))
    (hsuf : endswith (lower f) ".wav" = true)
    (hvf : fs.path_exists (video_file_of (pjoin vid sub) f) = true)
    (hcpe : enc (video_file_of (pjoin vid sub) f) (audio_file_of (pjoin aud sub) f)
        (output_file_of (pjoin out sub) f) = EncResult.calledProcessError) :
    Event.mergeError (video_file_of (pjoin vid sub) f) (audio_file_of (pjoin aud sub) f)
        (output_file_of (pjoin out sub) f) ∈ (mainRun fs enc aud vid out).events := by
  rw [mainRun_events_flatMap h]
  refine List.mem_flatMap.mpr ⟨sub, hsub, ?_⟩
  rw [processSubfolder_events_pos hdir hvs]
  refine List.mem_cons_of_mem _ ?_
  rw [(processFiles_of_encOK h _ _ _ _).1]
  refine List.mem_flatMap.mpr ⟨f, hf, ?_⟩
  rw [processFile_events_merge hsuf hvf, if_pos hcpe]
  exact List.mem_cons_of_mem _ (List.mem_cons_of_mem _ (List.mem_cons_self _ _))

/-- C3: with an encoder that fails only by a non-zero exit status
(CalledProcessError), the run never aborts, the sequence of merge
invocations equals the one an always-succeeding encoder would produce (a
failing pair suppresses neither later pairs nor later subdirectories), and
every invocation whose encoder call failed is followed by the printed
merge-error notice carrying the failing invocation's paths. -/
theorem encoder_failure_nonfatal
    (fs : FS) (enc : Encoder) (aud vid out : String) (hok : encOK enc) :
    (mainRun fs enc aud vid out).aborted = false ∧
    mergeCalls ((mainRun fs enc aud vid out).events) =
      mergeCalls ((mainRun fs encS aud vid out).events) ∧
    (∀ V A O, Event.mergeCall V A O ∈ (mainRun fs enc aud vid out).events →
      enc V A O = EncResult.calledProcessError →
      Event.mergeError V A O ∈ (mainRun fs enc aud vid out).events) := by
  refine ⟨(processSubfolders_of_encOK hok aud vid out _).2, ?_, ?_⟩
  · rw [mainRun_events_flatMap hok, mainRun_events_flatMap encOK_encS]
    induction (fs.listdir aud) with
    | nil => rfl
    | cons x xs ih =>
      rw [List.flatMap_cons, List.flatMap_cons, mergeCalls_append, mergeCalls_append, ih,
        mergeCalls_processSubfolder_indep hok]
  · intro V A O hmem hcpe
    obtain ⟨s, hs, f, hf, hdir, hvs, hsuf, hvf, hV, hA, hO⟩ := mergeCall_mem_mainRun hmem
    subst hV; subst hA; subst hO
    exact mergeError_mem_of hok hs hdir hvs hf hsuf hvf hcpe

/-- An encoder that always exits non-zero (raising CalledProcessError). -/
def encC : Encoder := fun _ _ _ => EncResult.calledProcessError

lemma encOK_encC : encOK encC := fun _ _ _ h => EncResult.noConfusion h

/-- Concrete filesystem for C3: two `.wav` files with matching videos. -/
def fsC3 : FS where
  listdir := fun d =>
    if d = "/a" then ["A"] else if d = "/a/A" then ["1.wav", "2.wav"] else []
  isdir := fun p => p = "/a/A"
  path_exists := fun p => p = "/v/A" || p = "/v/A/1.mp4" || p = "/v/A/2.mp4"

/-- Witness for `encoder_failure_nonfatal` with an always-failing
encoder. -/
theorem encoder_failure_nonfatal_witness :
    (mainRun fsC3 encC "/a" "/v" "/o").aborted = false ∧
    mergeCalls ((mainRun fsC3 encC "/a" "/v" "/o").events) =
      mergeCalls ((mainRun fsC3 encS "/a" "/v" "/o").events) ∧
    (∀ V A O, Event.mergeCall V A O ∈ (mainRun fsC3 encC "/a" "/v" "/o").events →
      encC V A O = EncResult.calledProcessError →
      Event.mergeError V A O ∈ (mainRun fsC3 encC "/a" "/v" "/o").events) :=
  encoder_failure_nonfatal fsC3 encC "/a" "/v" "/o" encOK_encC

/-- C9: only a CalledProcessError is caught and non-fatal: (i) an encoder
that never raises anything but CalledProcessError never aborts the run;
(ii) a file iteration aborts precisely when its pair was invoked and the
encoder raised some other exception (e.g. the executable not being found);
(iii) an aborting file iteration ends the file loop — the remaining entries
of the subfolder are skipped; (iv) an aborting subfolder iteration ends the
outer loop — the remaining subdirectories are skipped. -/
theorem only_cpe_caught
    (fs : FS) (enc : Encoder) (aud vid out : String) :
    (encOK enc → (mainRun fs enc aud vid out).aborted = false) ∧
    (∀ asub vsub osub f,
      (processFile fs enc asub vsub osub f).aborted = true ↔
        (endswith (lower f) ".wav" = true ∧
         fs.path_exists (video_file_of vsub f) = true ∧
         enc (video_file_of vsub f) (audio_file_of asub f) (output_file_of osub f) =
           EncResult.otherError)) ∧
    (∀ asub vsub osub f rest, (processFile fs enc asub vsub osub f).aborted = true →
      processFiles fs enc asub vsub osub (f :: rest) =
        processFile fs enc asub vsub osub f) ∧
    (∀ sub rest, (processSubfolder fs enc aud vid out sub).aborted = true →
      processSubfolders fs enc aud vid out (sub :: rest) =
        processSubfolder fs enc aud vid out sub) := by
  refine ⟨?_, ?_, ?_, ?_⟩
  · intro h
    exact (processSubfolders_of_encOK h aud vid out _).2
  · intro asub vsub osub f
    exact processFile_aborted_iff fs enc asub vsub osub f
  · intro asub vsub osub f rest hab
    simp only [processFiles]
    rw [if_pos hab]
  · intro sub rest hab
    simp only [processSubfolders]
    rw [if_pos hab]

/-- An encoder that always raises a non-CalledProcessError exception
(e.g. `FileNotFoundError`: the `ffmpeg` executable is missing). -/
def encO : Encoder := fun _ _ _ => EncResult.otherError

/-- Concrete filesystem for C9: subdirectories `A` (two matched files) and
`B`; the first invocation aborts the whole run under `encO`. -/
def fsC9 : FS where
  listdir := fun d =>
    if d = "/a" then ["A", "B"] else if d = "/a/A" then ["1.wav", "2.wav"] else []
  isdir := fun p => p = "/a/A" || p = "/a/B"
  path_exists := fun p => p = "/v/A" || p = "/v/A/1.mp4" || p = "/v/A/2.mp4"

/-- Witness for `only_cpe_caught` at concrete inputs: the always-succeeding
encoder never aborts; under `encO` the first pair's iteration aborts, the
file loop drops `2.wav`, and the outer loop drops subdirectory `B`. -/
theorem only_cpe_caught_witness :
    (mainRun fsC9 encS "/a" "/v" "/o").aborted = false ∧
    (processFile fsC9 encO (pjoin "/a" "A") (pjoin "/v" "A") (pjoin "/o" "A")
        "1.wav").aborted = true ∧
    processFiles fsC9 encO (pjoin "/a" "A") (pjoin "/v" "A") (pjoin "/o" "A")
        ["1.wav", "2.wav"] =
      processFile fsC9 encO (pjoin "/a" "A") (pjoin "/v" "A") (pjoin "/o" "A") "1.wav" ∧
    processSubfolders fsC9 encO "/a" "/v" "/o" ["A", "B"] =
      processSubfolder fsC9 encO "/a" "/v" "/o" "A" :=
  ⟨(only_cpe_caught fsC9 encS "/a" "/v" "/o").1 encOK_encS,
   ((only_cpe_caught fsC9 encO "/a" "/v" "/o").2.1 (pjoin "/a" "A") (pjoin "/v" "A")
       (pjoin "/o" "A") "1.wav").mpr (by decide),
   (only_cpe_caught fsC9 encO "/a" "/v" "/o").2.2.1 (pjoin "/a" "A") (pjoin "/v" "A")
       (pjoin "/o" "A") "1.wav" ["2.wav"] (by decide),
   (only_cpe_caught fsC9 encO "/a" "/v" "/o").2.2.2 "A" ["B"] (by decide)⟩

/-! ### Dependency of the run on the filesystem -/

lemma processFile_congr (fs fs' : FS) (enc : Encoder) (asub vsub osub f : String)
    (hpe : fs'.path_exists (video_file_of vsub f) = fs.path_exists (video_file_of vsub f)) :
    processFile fs' enc asub vsub osub f = processFile fs enc asub vsub osub f := by
  unfold processFile
  rw [hpe]

lemma processFiles_congr (fs fs' : FS) (enc : Encoder) (asub vsub osub : String)
    (l : List String)
    (hpe : ∀ f ∈ l, fs'.path_exists (video_file_of vsub f) =
      fs.path_exists (video_file_of vsub f)) :
    processFiles fs' enc asub vsub osub l = processFiles fs enc asub vsub osub l := by
  induction l with
  | nil => rfl
  | cons f rest ih =>
    simp only [processFiles]
    rw [processFile_congr fs fs' enc asub vsub osub f (hpe f (List.mem_cons_self _ _)),
      ih (fun g hg => hpe g (List.mem_cons_of_mem _ hg))]

lemma processSubfolder_congr (fs fs' : FS) (enc : Encoder) {aud vid out sub : String}
    (hdir : fs'.isdir (pjoin aud sub) = fs.isdir (pjoin aud sub))
    (hvs : fs'.path_exists (pjoin vid sub) = fs.path_exists (pjoin vid sub))
    (hls : fs'.listdir (pjoin aud sub) = fs.listdir (pjoin aud sub))
    (hpe : ∀ f ∈ fs.listdir (pjoin aud sub),
      fs'.path_exists (video_file_of (pjoin vid sub) f) =
        fs.path_exists (video_file_of (pjoin vid sub) f)) :
    processSubfolder fs' enc aud vid out sub = processSubfolder fs enc aud vid out sub := by
  unfold processSubfolder
  rw [hdir, hvs, hls, processFiles_congr fs fs' enc _ _ _ _ hpe]

lemma processSubfolders_congr (fs fs' : FS) (enc : Encoder) (aud vid out : String)
    (l : List String)
    (h : ∀ s ∈ l, processSubfolder fs' enc aud vid out s =
      processSubfolder fs enc aud vid out s) :
    processSubfolders fs' enc aud vid out l = processSubfolders fs enc aud vid out l := by
  induction l with
  | nil => rfl
  | cons s rest ih =>
    simp only [processSubfolders]
    rw [h s (List.mem_cons_self _ _), ih (fun x hx => h x (List.mem_cons_of_mem _ hx))]

/-- C10: the per-entry checks are existence/suffix checks only, never type
checks: a `.wav` entry that is itself a directory is still a candidate, an
existing directory at the expected video path still satisfies the video
check — the pair is merged anyway — and the whole run is unchanged by
arbitrary changes of `isdir` away from the audio root's entries, which are
the only paths whose directory-ness is ever queried. -/
theorem existence_checks_only
    (fs fs' : FS) (enc : Encoder) (aud vid out sub f : String) (hok : encOK enc)
    (hsub : sub ∈ fs.listdir aud) (hdir : fs.isdir (pjoin aud sub) = true)
    (hvs : fs.path_exists (pjoin vid sub) = true)
    (hf : f ∈ fs.listdir (pjoin aud sub)) (hsuf : endswith (lower f) ".wav" = true)
    (haudtype : fs.isdir (pjoin (pjoin aud sub) f) = true)
    (hvf : fs.path_exists (video_file_of (pjoin vid sub) f) = true)
    (hvtype : fs.isdir (video_file_of (pjoin vid sub) f) = true)
    (hl : fs'.listdir = fs.listdir) (hpe : fs'.path_exists = fs.path_exists)
    (hisdir : ∀ s ∈ fs.listdir aud, fs'.isdir (pjoin aud s) = fs.isdir (pjoin aud s)) :
    Event.mergeCall (video_file_of (pjoin vid sub) f) (audio_file_of (pjoin aud sub) f)
        (output_file_of (pjoin out sub) f) ∈ (mainRun fs enc aud vid out).events ∧
    mainRun fs' enc aud vid out = mainRun fs enc aud vid out := by
  constructor
  · exact mergeCall_mem_of hok hsub hdir hvs hf hsuf hvf
  · unfold mainRun
    rw [hl]
    apply processSubfolders_congr
    intro s hs
    exact processSubfolder_congr fs fs' enc (hisdir s hs) (by rw [hpe]) (by rw [hl])
      (fun g hg => by rw [hpe])

/-- Concrete filesystem for C10: the audio entry `d.wav` and the video path
`/v/A/d.mp4` are both directories; both checks still pass. -/
def fsC10 : FS where
  listdir := fun d =>
    if d = "/a" then ["A"] else if d = "/a/A" then ["d.wav"] else []
  isdir := fun p => p = "/a/A" || p = "/a/A/d.wav" || p = "/v/A/d.mp4"
  path_exists := fun p => p = "/v/A" || p = "/v/A/d.mp4"

/-- Witness for `existence_checks_only` at a concrete filesystem (taking
`fs' = fs`). -/
theorem existence_checks_only_witness :
    Event.mergeCall (video_file_of (pjoin "/v" "A") "d.wav")
        (audio_file_of (pjoin "/a" "A") "d.wav")
        (output_file_of (pjoin "/o" "A") "d.wav") ∈
      (mainRun fsC10 encS "/a" "/v" "/o").events ∧
    mainRun fsC10 encS "/a" "/v" "/o" = mainRun fsC10 encS "/a" "/v" "/o" :=
  existence_checks_only fsC10 fsC10 encS "/a" "/v" "/o" "A" "d.wav" encOK_encS
    (by decide) (by decide) (by decide) (by decide) (by decide) (by decide)
    (by decide) (by decide) rfl rfl (fun s hs => rfl)

/-- Full-result form of the skip branch of `processSubfolder`. -/
lemma processSubfolder_eq_skip {fs : FS} {enc : Encoder} {aud vid out sub : String}
    (hdir : fs.isdir (pjoin aud sub) = true)
    (hvs : fs.path_exists (pjoin vid sub) = false) :
    processSubfolder fs enc aud vid out sub =
      ⟨[Event.makedirs (pjoin out sub), Event.folderSkipped (pjoin vid sub) sub],
       false⟩ := by
  unfold processSubfolder
  rw [if_neg (by simp [hdir]), if_pos hvs]

/-- Full-result form of the processing branch of `processSubfolder`. -/
lemma processSubfolder_eq_pos {fs : FS} {enc : Encoder} {aud vid out sub : String}
    (hdir : fs.isdir (pjoin aud sub) = true)
    (hvs : fs.path_exists (pjoin vid sub) = true) :
    processSubfolder fs enc aud vid out sub =
      ⟨Event.makedirs (pjoin out sub) ::
         (processFiles fs enc (pjoin aud sub) (pjoin vid sub) (pjoin out sub)
           (fs.listdir (pjoin aud sub))).events,
       (processFiles fs enc (pjoin aud sub) (pjoin vid sub) (pjoin out sub)
         (fs.listdir (pjoin aud sub))).aborted⟩ := by
  unfold processSubfolder
  rw [if_neg (by simp [hdir]), if_neg (by simp [hvs])]

/-- The function `processFile` reads the filesystem only at the expected video file, and
only after the suffix test passed. -/
lemma processFile_congr_cond (fs fs' : FS) (enc : Encoder) (asub vsub osub f : String)
    (hpe : endswith (lower f) ".wav" = true →
      fs'.path_exists (video_file_of vsub f) = fs.path_exists (video_file_of vsub f)) :
    processFile fs' enc asub vsub osub f = processFile fs enc asub vsub osub f := by
  by_cases hsuf : endswith (lower f) ".wav" = true
  · exact processFile_congr fs fs' enc asub vsub osub f (hpe hsuf)
  · rw [processFile_nonwav (by simpa using hsuf), processFile_nonwav (by simpa using hsuf)]

lemma processFiles_congr_cond (fs fs' : FS) (enc : Encoder) (asub vsub osub : String)
    (l : List String)
    (hpe : ∀ f ∈ l, endswith (lower f) ".wav" = true →
      fs'.path_exists (video_file_of vsub f) = fs.path_exists (video_file_of vsub f)) :
    processFiles fs' enc asub vsub osub l = processFiles fs enc asub vsub osub l := by
  induction l with
  | nil => rfl
  | cons f rest ih =>
    simp only [processFiles]
    rw [processFile_congr_cond fs fs' enc asub vsub osub f (hpe f (List.mem_cons_self _ _)),
      ih (fun g hg => hpe g (List.mem_cons_of_mem _ hg))]

/-- The expected-video-file existence queries made while scanning one
audio subfolder. -/
def fileExistsQueries (fs : FS) (asub vsub : String) : List String :=
  (fs.listdir asub).filterMap fun f =>
    if endswith (lower f) ".wav" then some (video_file_of vsub f) else none

/-- Every path whose existence a run of `main` consults: the video
subfolder of each audio subdirectory, and — when that subfolder exists —
the expected video file of each `.wav` candidate inside it.  Output file
paths are never queried. -/
def existsQueries (fs : FS) (aud vid : String) : List String :=
  (fs.listdir aud).flatMap fun sub =>
    if fs.isdir (pjoin aud sub) then
      pjoin vid sub ::
        (if fs.path_exists (pjoin vid sub) then
          fileExistsQueries fs (pjoin aud sub) (pjoin vid sub)
        else [])
    else []

/-- C6: a run reads existence only at the paths in `existsQueries` — output
file paths are not among them — so running again on unchanged inputs (even
with the first run's outputs now present on disk) performs the identical
run, and every encoder invocation carries the "-y" flag, instructing the
encoder to overwrite any pre-existing output file rather than fail. -/
theorem rerun_same_outputs_and_overwrite
    (fs fs' : FS) (enc : Encoder) (aud vid out : String)
    (hl : fs'.listdir = fs.listdir) (hd : fs'.isdir = fs.isdir)
    (hpe : ∀ p ∈ existsQueries fs aud vid, fs'.path_exists p = fs.path_exists p) :
    mainRun fs' enc aud vid out = mainRun fs enc aud vid out ∧
    (∀ V A O, Event.mergeCall V A O ∈ (mainRun fs enc aud vid out).events →
      "-y" ∈ ffmpeg_cmd V A O) := by
  constructor
  · unfold mainRun
    rw [hl]
    apply processSubfolders_congr
    intro s hs
    by_cases hdir : fs.isdir (pjoin aud s) = true
    · have hq1 : pjoin vid s ∈ existsQueries fs aud vid := by
        unfold existsQueries
        refine List.mem_flatMap.mpr ⟨s, hs, ?_⟩
        rw [if_pos hdir]
        exact List.mem_cons_self _ _
      by_cases hvs : fs.path_exists (pjoin vid s) = true
      · rw [processSubfolder_eq_pos (by rw [hd]; exact hdir)
            (by rw [hpe _ hq1]; exact hvs),
          processSubfolder_eq_pos hdir hvs, hl]
        rw [processFiles_congr_cond fs fs' enc _ _ _ _ ?_]
        intro g hg hsufg
        apply hpe
        unfold existsQueries
        refine List.mem_flatMap.mpr ⟨s, hs, ?_⟩
        rw [if_pos hdir]
        refine List.mem_cons_of_mem _ ?_
        rw [if_pos hvs]
        unfold fileExistsQueries
        exact List.mem_filterMap.mpr ⟨g, hg, by rw [if_pos hsufg]⟩
      · have hvs' : fs.path_exists (pjoin vid s) = false := by simpa using hvs
        rw [processSubfolder_eq_skip (by rw [hd]; exact hdir)
            (by rw [hpe _ hq1]; exact hvs'),
          processSubfolder_eq_skip hdir hvs']
    · have hdir' : fs.isdir (pjoin aud s) = false := by simpa using hdir
      rw [processSubfolder_nondir (by rw [hd]; exact hdir'),
        processSubfolder_nondir hdir']
  · intro V A O hmem
    unfold ffmpeg_cmd
    exact List.mem_cons_of_mem _ (List.mem_cons_self _ _)

/-- Concrete filesystem for C6, before the first run. -/
def fsC6 : FS where
  listdir := fun d => if d = "/a" then ["A"] else if d = "/a/A" then ["1.wav"] else []
  isdir := fun p => p = "/a/A"
  path_exists := fun p => p = "/v/A" || p = "/v/A/1.mp4"

/-- The same filesystem after the first run: the output `/o/A/1.webm` now
exists on disk. -/
def fsC6' : FS where
  listdir := fsC6.listdir
  isdir := fsC6.isdir
  path_exists := fun p => p = "/v/A" || p = "/v/A/1.mp4" || p = "/o/A/1.webm"

/-- Witness for `rerun_same_outputs_and_overwrite`: the second run, with
the first run's output present, is identical to the first. -/
theorem rerun_same_outputs_and_overwrite_witness :
    mainRun fsC6' encS "/a" "/v" "/o" = mainRun fsC6 encS "/a" "/v" "/o" ∧
    (∀ V A O, Event.mergeCall V A O ∈ (mainRun fsC6 encS "/a" "/v" "/o").events →
      "-y" ∈ ffmpeg_cmd V A O) :=
  rerun_same_outputs_and_overwrite fsC6 fsC6' encS "/a" "/v" "/o" rfl rfl (by decide)
